import Mathlib

/-!
Shallow embedding of the `skills_fetcher` repository (TypeScript) in Lean 4:
the crawler (`src/crawl.ts`, crawl half), the enricher (`src/crawl.ts`,
enrichment half) and the rule-based categorizer (the unnamed source file).

Modelling conventions:
* JavaScript strings are modelled as Lean `String` / `List Char`; positions
  and lengths count characters (the inputs of interest are ASCII, where
  UTF-16 code-unit counts and character counts coincide).
* JavaScript `Map` objects are modelled either as functions into `Option`
  (when only `get`/`has`/`set` semantics matter) or as association lists
  (when insertion order matters, since `Map` iterates in insertion order).
* `fetch` outcomes are supplied as an oracle `Nat → Attempt` giving the
  outcome of each successive attempt; install counts are `Nat`.
-/

namespace SkillsFetcher

set_option maxRecDepth 8192

/-- Outcome of a single `fetch` call: an HTTP response with a status code,
or a network/timeout error (the promise rejects). -/
inductive Attempt where
  | response (status : Nat)
  | netError
deriving DecidableEq, Repr

/-- Error propagated out of `fetchWithRetry`. -/
inductive FetchErr where
  | httpError (status : Nat)
  | netError
  | unreachable
deriving DecidableEq, Repr

/-- `resp.ok`: status in the inclusive range 200–299. -/
def respOk (s : Nat) : Bool := 200 ≤ s && s < 300

/-- `MAX_RETRIES` from `src/crawl.ts`. -/
def MAX_RETRIES : Nat := 4

/-- Trace of one `fetchWithRetry` run: the returned status or thrown error,
the number of `fetch` calls made, and the list of backoff sleeps (ms). -/
structure RetryTrace where
  result : Except FetchErr Nat
  fetchCount : Nat
  sleeps : List Nat
deriving Repr

/-- The loop of `fetchWithRetry` (src/crawl.ts lines 60–78).  `fuel` counts
the iterations left (`fuel = MAX_RETRIES - attempt`), so `fuel = 0` is the
loop exiting and reaching `throw new Error("unreachable")`.  `outcomes n`
gives the outcome of the `(n+1)`-st `fetch` call.  Note the
`throw new Error("HTTP …")` for a non-retryable status sits inside the
`try` block, so it is caught by the function's own `catch`, which sleeps
and retries unless this was the last attempt. -/
def fetchRetryGo (outcomes : Nat → Attempt) : Nat → Nat → RetryTrace
  | 0, _ =>
    -- the loop exits and `throw new Error("unreachable")` runs
    { result := .error .unreachable, fetchCount := 0, sleeps := [] }
  | fuel + 1, attempt =>
    match outcomes attempt with
    | .response s =>
      if respOk s then
        { result := .ok s, fetchCount := 1, sleeps := [] }
      else if s == 429 || 500 ≤ s then
        let t := fetchRetryGo outcomes fuel (attempt + 1)
        { result := t.result, fetchCount := t.fetchCount + 1,
          sleeps := 200 * 2 ^ attempt :: t.sleeps }
      else
        -- `throw new Error("HTTP …")`, caught by the surrounding `catch`
        if attempt == MAX_RETRIES - 1 then
          { result := .error (.httpError s), fetchCount := 1, sleeps := [] }
        else
          let t := fetchRetryGo outcomes fuel (attempt + 1)
          { result := t.result, fetchCount := t.fetchCount + 1,
            sleeps := 200 * 2 ^ attempt :: t.sleeps }
    | .netError =>
      if attempt == MAX_RETRIES - 1 then
        { result := .error .netError, fetchCount := 1, sleeps := [] }
      else
        let t := fetchRetryGo outcomes fuel (attempt + 1)
        { result := t.result, fetchCount := t.fetchCount + 1,
          sleeps := 200 * 2 ^ attempt :: t.sleeps }

/-- `fetchWithRetry` itself: the loop run for `MAX_RETRIES` iterations
starting at attempt 0. -/
def fetchWithRetry (outcomes : Nat → Attempt) : RetryTrace :=
  fetchRetryGo outcomes MAX_RETRIES 0

/-- A row returned by the skills API. -/
structure ApiSkill where
  source : String
  skillId : String
  name : String
  installs : Nat
deriving DecidableEq, Repr

/-- The id under which a row is keyed: `` `${s.source}/${s.skillId}` ``. -/
def mkId (s : ApiSkill) : String := s.source ++ "/" ++ s.skillId

/-- One step of building a per-board installs map
(`installsX.set(id, Math.max(installsX.get(id) ?? 0, s.installs))`). -/
def installsStep (m : String → Option Nat) (s : ApiSkill) : String → Option Nat :=
  fun k => if k = mkId s then some (max ((m (mkId s)).getD 0) s.installs) else m k

/-- The per-board installs map built from that board's rows
(src/crawl.ts lines 138–149, identical for the three boards). -/
def buildInstalls (rows : List ApiSkill) : String → Option Nat :=
  rows.foldl installsStep (fun _ => none)

/-- One step of collecting unique skills:
`if (!skillMap.has(id)) skillMap.set(id, s)`.  The association list keeps
JavaScript `Map` insertion order. -/
def insertSkill (acc : List (String × ApiSkill)) (s : ApiSkill) :
    List (String × ApiSkill) :=
  if acc.any (fun p => p.1 = mkId s) then acc else acc ++ [(mkId s, s)]

/-- `skillMap` built from the concatenation of the three boards' rows in
board order all-time, trending, hot (src/crawl.ts lines 152–160). -/
def buildSkillMap (rows : List ApiSkill) : List (String × ApiSkill) :=
  rows.foldl insertSkill []

/-- One iteration of the first-seen update loop:
`if (!firstSeen.has(id)) firstSeen.set(id, now)`. -/
def firstSeenStep (now : String) (m : String → Option String) (id : String) :
    String → Option String :=
  if (m id).isSome then m else fun k => if k = id then some now else m k

/-- The first-seen update loop (src/crawl.ts lines 162–169):
`for (const id of skillMap.keys()) if (!firstSeen.has(id)) firstSeen.set(id, now)`.
The map is modelled as a function `String → Option String`; `saveFirstSeen`
then serialises exactly this mapping (sorting keys changes no value). -/
def updateFirstSeen (firstSeen : String → Option String) (ids : List String)
    (now : String) : String → Option String :=
  ids.foldl (firstSeenStep now) firstSeen

/-- Characters `encodeURIComponent` leaves unescaped:
`A–Z a–z 0–9 - _ . ! ~ * ' ( )`.  (`c.toNat = 39` is the apostrophe.) -/
def uriUnreserved (c : Char) : Bool :=
  c.isAlphanum || c = '-' || c = '_' || c = '.' || c = '!' || c = '~' ||
    c = '*' || c.toNat = 39 || c = '(' || c = ')'

/-- Uppercase hexadecimal digit for `n < 16`. -/
def hexDigit (n : Nat) : Char :=
  if n < 10 then Char.ofNat (48 + n) else Char.ofNat (55 + n)

/-- Percent-encoding of one byte value, e.g. `%2F`. -/
def pctByte (b : Nat) : List Char :=
  ['%', hexDigit (b / 16), hexDigit (b % 16)]

/-- UTF-8 encoding of one code point, as byte values. -/
def utf8Bytes (c : Char) : List Nat :=
  let n := c.toNat
  if n < 128 then [n]
  else if n < 2048 then [192 + n / 64, 128 + n % 64]
  else if n < 65536 then [224 + n / 4096, 128 + (n / 64) % 64, 128 + n % 64]
  else [240 + n / 262144, 128 + (n / 4096) % 64, 128 + (n / 64) % 64, 128 + n % 64]

/-- JavaScript `encodeURIComponent`: unreserved characters pass through,
every other character is UTF-8 encoded and each byte percent-escaped. -/
def encodeURIComponent (s : String) : String :=
  String.mk (s.data.foldr
    (fun c acc =>
      if uriUnreserved c then c :: acc
      else (utf8Bytes c).foldr (fun b a => pctByte b ++ a) acc)
    [])

/-- `SkillIndexItem` from src/crawl.ts (nullable fields become `Option`). -/
structure SkillIndexItem where
  id : String
  providerId : String
  source : String
  skillId : String
  title : String
  link : String
  installsAllTime : Nat
  installsTrending : Nat
  installsHot : Nat
  firstSeenAt : Option String
  description : Option String
  skillMdPath : Option String
deriving DecidableEq, Repr

/-- Building one index item from a `skillMap` entry (src/crawl.ts lines
173–189), given the three per-board installs maps and the (already updated)
first-seen map. -/
def buildItem (instAll instTr instHot : String → Option Nat)
    (firstSeen : String → Option String) (p : String × ApiSkill) :
    SkillIndexItem :=
  { id := p.1
    providerId := "skills.sh"
    source := p.2.source
    skillId := p.2.skillId
    title := p.2.name
    link := "https://skills.sh/skills/" ++ encodeURIComponent p.2.source ++ "/"
      ++ encodeURIComponent p.2.skillId
    installsAllTime := ((instAll p.1).getD 0)
    installsTrending := ((instTr p.1).getD 0)
    installsHot := ((instHot p.1).getD 0)
    firstSeenAt := firstSeen p.1
    description := none
    skillMdPath := none }

/-- The unsorted items list built by `main` from the three boards' rows
(iterating `skillMap` in insertion order, i.e. first-encountered order). -/
def buildItems (bAll bTr bHot : List ApiSkill)
    (firstSeen : String → Option String) : List SkillIndexItem :=
  (buildSkillMap (bAll ++ bTr ++ bHot)).map
    (buildItem (buildInstalls bAll) (buildInstalls bTr) (buildInstalls bHot)
      firstSeen)

/-- Stable insertion used to model
`items.sort((a, b) => b.installsAllTime - a.installsAllTime)`: an element is
placed before the first position whose entry does not have strictly more
installs.  ECMAScript `Array.prototype.sort` is required to be stable, and a
stable sort for a total preorder has a unique result, so stable insertion
sort is a faithful model of line 192 of src/crawl.ts. -/
def insertDesc (x : SkillIndexItem) : List SkillIndexItem → List SkillIndexItem
  | [] => [x]
  | y :: ys =>
    if y.installsAllTime ≤ x.installsAllTime then x :: y :: ys
    else y :: insertDesc x ys

/-- The sort on line 192 of src/crawl.ts: descending by `installsAllTime`,
stable. -/
def sortItems (l : List SkillIndexItem) : List SkillIndexItem :=
  l.foldr insertDesc []

/-! ## Enricher (second half of src/crawl.ts) -/

/-- One entry of `results` in the enrichment `main`:
`{ id, description, mdPath }`. -/
structure EnrichResult where
  id : String
  description : Option String
  mdPath : Option String
deriving DecidableEq, Repr

/-- JavaScript truthiness of a nullable string (`null`, `undefined` and the
empty string are falsy). -/
def strTruthy : Option String → Bool
  | none => false
  | some s => s ≠ ""

/-- The work list of the enrichment `main` (src/crawl.ts lines 412–414):
`index.items.slice(0, TOP_N).filter((item) => !item.description)`. -/
def needsFetch (topN : Nat) (items : List SkillIndexItem) :
    List SkillIndexItem :=
  (items.take topN).filter (fun it => !strTruthy it.description)

/-- The patch applied to one index item in the loop on src/crawl.ts lines
435–441: `const result = descMap.get(item.id); if (result?.description) {
item.description = result.description; item.skillMdPath = result.mdPath; }`.
`r?` is `descMap.get(item.id)`. -/
def patchItem (r? : Option EnrichResult) (item : SkillIndexItem) :
    SkillIndexItem :=
  match r? with
  | none => item
  | some r =>
    match r.description with
    | none => item
    | some d =>
      if d = "" then item
      else { item with description := some d, skillMdPath := r.mdPath }

/-- The whole patch loop over `index.items`. -/
def patchIndex (descMap : String → Option EnrichResult)
    (items : List SkillIndexItem) : List SkillIndexItem :=
  items.map (fun item => patchItem (descMap item.id) item)

/-! ## Description extraction (`extractDescription`, src/crawl.ts 288–340) -/

/-- JavaScript `String.prototype.trim` on a character list (all whitespace
in the inputs of interest is ASCII). -/
def jsTrim (l : List Char) : List Char :=
  ((l.dropWhile Char.isWhitespace).reverse.dropWhile Char.isWhitespace).reverse

/-- `indexOf` with a from-index: `i` is the absolute position of the first
character of `hay` (a suffix of the original string); returns the smallest
absolute position `≥ i` where `needle` occurs, or `none` (JavaScript `-1`). -/
def indexOfFrom (needle : List Char) : List Char → Nat → Option Nat
  | [], i => if needle.isEmpty then some i else none
  | hay@(_ :: rest), i =>
    if needle.isPrefixOf hay then some i else indexOfFrom needle rest (i + 1)

/-- Front-matter stripping (src/crawl.ts lines 290–296): if the text starts
with `---` and a closing `---` occurs at some position `e ≥ 3`, the body is
`md.slice(e + 3).trim()`; otherwise the body is `md` unchanged. -/
def stripFrontmatter (md : List Char) : List Char :=
  if ['-', '-', '-'].isPrefixOf md then
    match indexOfFrom ['-', '-', '-'] (md.drop 3) 3 with
    | some e => jsTrim (md.drop (e + 3))
    | none => md
  else md

/-- Does the (trimmed) line start with `#`? -/
def startsHash : List Char → Bool
  | '#' :: _ => true
  | _ => false

/-- Does the (trimmed) line start with a code fence (three backticks)?
(`Char.ofNat 96` is the backtick.) -/
def startsFence (l : List Char) : Bool :=
  [Char.ofNat 96, Char.ofNat 96, Char.ofNat 96].isPrefixOf l

/-- Does the (trimmed) line start with `- [` (a checklist item)? -/
def startsChecklist (l : List Char) : Bool :=
  ['-', ' ', '['].isPrefixOf l

/-- The first loop of `extractDescription` (lines 300–311): `startIdx` is
`i + 1` for the first line whose trim starts with `#`, or `i` for the first
line with non-empty trim, scanning in order; 0 if every line is blank. -/
def findStartIdx : List (List Char) → Nat → Nat
  | [], _ => 0
  | l :: ls, i =>
    let t := jsTrim l
    if startsHash t then i + 1
    else if t.length > 0 then i
    else findStartIdx ls (i + 1)

/-- The paragraph-collection loop (lines 314–324) over the lines from
`startIdx` on: skip blank lines until content starts, stop at the first
blank line afterwards, skip heading / code-fence / checklist lines, and
collect the trimmed lines (`acc` is in reverse order). -/
def collectPara (acc : List (List Char)) : List (List Char) → List (List Char)
  | [] => acc.reverse
  | l :: ls =>
    let t := jsTrim l
    if t.length = 0 then
      if acc.length > 0 then acc.reverse else collectPara acc ls
    else if startsHash t || startsFence t || startsChecklist t then
      collectPara acc ls
    else collectPara (t :: acc) ls

/-- One attempted match of the link pattern `\[([^\]]+)\]\([^)]+\)` just
after an opening `[`: the link text is the non-empty run up to the first
`]`, which must be followed by `(`, a non-empty run up to the first `)`,
and `)`.  Returns the capture and the input after the match. -/
def tryLink (cs : List Char) : Option (List Char × List Char) :=
  let label := cs.takeWhile (fun c => c ≠ ']')
  let rest := cs.dropWhile (fun c => c ≠ ']')
  if label.isEmpty then none
  else
    match rest with
    | ']' :: '(' :: rest2 =>
      let url := rest2.takeWhile (fun c => c ≠ ')')
      let rest3 := rest2.dropWhile (fun c => c ≠ ')')
      if url.isEmpty then none
      else
        match rest3 with
        | ')' :: rest4 => some (label, rest4)
        | _ => none
    | _ => none

/-- `desc.replace(/\[([^\]]+)\]\([^)]+\)/g, "$1")` scanning left to right.
`fuel` bounds the scan steps; `fuel = cs.length` suffices because every
step consumes at least one character. -/
def stripLinks : Nat → List Char → List Char
  | 0, cs => cs
  | _ + 1, [] => []
  | fuel + 1, '[' :: rest =>
    (match tryLink rest with
     | some (label, rest2) => label ++ stripLinks fuel rest2
     | none => '[' :: stripLinks fuel rest)
  | fuel + 1, c :: rest => c :: stripLinks fuel rest

/-- Is the character removed by `desc.replace(/[*_`]/g, "")`?
(`Char.ofNat 96` is the backtick.) -/
def isEmphChar (c : Char) : Bool := c = '*' || c = '_' || c.toNat = 96

/-- The description pipeline up to (but excluding) truncation and the
length threshold: front-matter strip, line split, heading skip, paragraph
collection, join with single spaces, link and emphasis-marker stripping,
final trim.  `none` iff no paragraph line was collected. -/
def descCore (md : List Char) : Option (List Char) :=
  let body := stripFrontmatter md
  let lines := body.splitOn '\n'
  let start := findStartIdx lines 0
  let para := collectPara [] (lines.drop start)
  if para.isEmpty then none
  else
    let d0 := List.intercalate [' '] para
    let d1 := stripLinks d0.length d0
    let d2 := d1.filter (fun c => !isEmphChar c)
    some (jsTrim d2)

/-- `extractDescription` (src/crawl.ts lines 288–340): the pipeline above,
then truncation of a result longer than 200 characters to 197 characters
plus `"..."`, and the final `desc.length > 10 ? desc : null`. -/
def extractDescription (md : String) : Option String :=
  match descCore md.data with
  | none => none
  | some desc =>
    let desc2 := if desc.length > 200 then desc.take 197 ++ ['.', '.', '.'] else desc
    if desc2.length > 10 then some (String.mk desc2) else none


/-! ## Categorizer (the unnamed source file) -/

/-- One token of a category pattern alternative: a literal character, or
`.?` (an optional arbitrary character). -/
inductive PTok where
  | lit (c : Char)
  | anyOpt
deriving DecidableEq, Repr

/-- A literal keyword as a token sequence. -/
def lits (s : String) : List PTok := s.data.map PTok.lit

/-- Two literal parts joined by `.?`, e.g. `machine.?learning`. -/
def litsOpt (a b : String) : List PTok := lits a ++ [PTok.anyOpt] ++ lits b

/-- JavaScript `\w`: ASCII letter, digit or underscore. -/
def isWordChar (c : Char) : Bool := c.isAlphanum || c = '_'

/-- `\b` between an optional preceding and following character: a word
boundary holds iff exactly one side is a word character. -/
def boundary (prev next : Option Char) : Bool :=
  (match prev with | none => false | some c => isWordChar c) !=
    (match next with | none => false | some c => isWordChar c)

/-- Match a token sequence against a prefix of `s`, then require a word
boundary after the match; `last` is the most recently consumed character.
`.?` branches over matching one arbitrary character or none. -/
def matchToks : List PTok → List Char → Char → Bool
  | [], rest, last => boundary (some last) rest.head?
  | .lit c :: ts, x :: rest, _ => x = c && matchToks ts rest x
  | .lit _ :: _, [], _ => false
  | .anyOpt :: ts, rest, last =>
    matchToks ts rest last ||
      (match rest with
       | x :: rest2 => matchToks ts rest2 x
       | [] => false)

/-- Does the alternative match starting exactly at `s`, whose preceding
character is `prev`?  Every alternative in the rule table begins with a
word character, so the leading `\b` is the boundary between `prev` and the
first character of `s`.  The placeholder `'-'` for `last` is consulted only
by an alternative that consumes no characters, which does not occur in the
table. -/
def altMatchesAt (alt : List PTok) (prev : Option Char) (s : List Char) : Bool :=
  boundary prev s.head? && matchToks alt s '-'

/-- Scan for a match of the alternative at any position of the text. -/
def altMatches (alt : List PTok) : Option Char → List Char → Bool
  | prev, [] => altMatchesAt alt prev []
  | prev, x :: rest => altMatchesAt alt prev (x :: rest) || altMatches alt (some x) rest

/-- `pattern.test(text)` for a case-insensitive `\b(alt1|...|altN)\b`
pattern: the caller lowercases the text (the keywords are lowercase), and
the pattern matches iff some alternative matches at some position. -/
def patternMatches (alts : List (List PTok)) (text : List Char) : Bool :=
  alts.any (fun alt => altMatches alt none text)

/-- The `development-tools` keyword alternation from the categorizer rule table. -/
def devToolsAlts : List (List PTok) :=
  [lits "code", lits "coding", lits "dev", lits "debug", lits "lint", lits "test", lits "git",
   lits "ci", lits "cd", lits "deploy", lits "docker", lits "k8s", lits "kubernetes",
   lits "terraform", lits "aws", lits "gcp", lits "azure", lits "api", lits "sdk", lits "cli",
   lits "compiler", lits "build", lits "webpack", lits "vite", lits "npm", lits "yarn",
   lits "rust", lits "python", lits "java", lits "typescript", lits "javascript",
   lits "react", lits "vue", lits "angular", lits "svelte", lits "node", lits "deno",
   lits "bun", lits "go", lits "swift", lits "kotlin", lits "flutter", lits "android",
   lits "ios", lits "mobile", lits "web", lits "frontend", lits "backend", lits "fullstack",
   lits "database", lits "sql", lits "postgres", lits "mongo", lits "redis", lits "graphql",
   lits "rest", lits "grpc", lits "microservice", lits "devops", lits "infra", lits "cloud",
   lits "server", lits "lambda", lits "function", lits "endpoint", lits "route",
   lits "middleware", lits "auth", lits "oauth", lits "jwt", lits "session", lits "cookie",
   lits "cors", lits "csrf", lits "xss", lits "injection", lits "security", lits "vuln",
   lits "pentest", lits "ctf", lits "hack", lits "exploit", lits "patch", lits "hotfix",
   lits "refactor", lits "migrate", lits "upgrade", lits "version", lits "release",
   lits "changelog", lits "semver", lits "monorepo", lits "workspace"]

/-- The `data-analysis` keyword alternation from the categorizer rule table. -/
def dataAnalysisAlts : List (List PTok) :=
  [lits "data", lits "analytics", lits "analysis", lits "dashboard", lits "chart",
   lits "graph", lits "viz", lits "visual", lits "report", lits "metric", lits "kpi",
   lits "bi", lits "etl", lits "pipeline", lits "warehouse", lits "lake", lits "spark",
   lits "hadoop", lits "pandas", lits "numpy", lits "scipy", lits "matplotlib",
   lits "jupyter", lits "notebook", lits "statistics", lits "stat", lits "ml",
   litsOpt "machine" "learning", lits "ai", lits "model", lits "train", lits "predict",
   lits "classify", lits "cluster", lits "neural", litsOpt "deep" "learn", lits "llm",
   lits "gpt", lits "bert", lits "transformer", lits "embed", lits "vector", lits "rag",
   lits "prompt", litsOpt "fine" "tun", lits "dataset", lits "feature", lits "label",
   lits "annotate", lits "nlp", lits "sentiment", lits "token", lits "parse", lits "scrape",
   lits "crawl", lits "extract"]

/-- The `document-processing` keyword alternation from the categorizer rule table. -/
def docProcAlts : List (List PTok) :=
  [lits "document", lits "doc", lits "pdf", lits "word", lits "excel", lits "csv",
   lits "json", lits "xml", lits "yaml", lits "markdown", lits "md", lits "html",
   lits "latex", lits "template", lits "format", lits "convert", lits "transform",
   lits "parse", lits "extract", lits "ocr", lits "scan", lits "image", lits "photo",
   lits "video", lits "audio", lits "media", lits "file", lits "upload", lits "download",
   lits "compress", lits "archive", lits "zip", lits "encrypt", lits "decrypt", lits "sign",
   lits "stamp", lits "watermark", lits "merge", lits "split", lits "batch", lits "bulk",
   lits "process", lits "workflow", lits "automat", lits "pipe"]

/-- The `creative-media` keyword alternation from the categorizer rule table. -/
def creativeAlts : List (List PTok) :=
  [lits "design", lits "figma", lits "sketch", lits "photoshop", lits "illustrator",
   lits "canva", lits "ui", lits "ux", lits "css", lits "style", lits "theme", lits "color",
   lits "font", lits "typography", lits "layout", lits "responsive", lits "animate",
   lits "motion", lits "3d", lits "render", lits "game", lits "unity", lits "unreal",
   lits "godot", lits "pixel", lits "sprite", lits "asset", lits "texture", lits "material",
   lits "shader", lits "vfx", lits "sfx", lits "music", lits "sound", lits "voice",
   lits "tts", lits "stt", lits "speech", lits "video", lits "stream", lits "record",
   lits "edit", lits "cut", lits "trim", lits "subtitle", lits "caption", lits "transcri",
   lits "podcast", lits "youtube", lits "tiktok", lits "instagram", lits "social",
   lits "content", lits "blog", lits "post", lits "article", lits "story", lits "creative",
   lits "art", lits "draw", lits "paint", lits "generate", lits "diffusion", lits "dall",
   lits "midjourney", lits "stable"]

/-- The `communication-writing` keyword alternation from the categorizer rule table. -/
def commWritingAlts : List (List PTok) :=
  [lits "write", lits "writing", lits "writer", lits "copywrite", lits "copy", lits "edit",
   lits "proofread", lits "grammar", lits "spell", lits "translate", lits "translat",
   lits "i18n", lits "l10n", lits "locale", lits "language", lits "english", lits "chinese",
   lits "spanish", lits "french", lits "german", lits "japanese", lits "korean", lits "email",
   lits "mail", lits "letter", lits "memo", lits "proposal", lits "pitch", lits "present",
   lits "slide", lits "deck", lits "speak", lits "communicat", lits "chat", lits "message",
   lits "sms", lits "notify", lits "notification", lits "alert", lits "webhook", lits "slack",
   lits "discord", lits "teams", lits "telegram", lits "bot", lits "assist", lits "help",
   lits "support", lits "faq", litsOpt "knowledge" "base", lits "wiki", lits "documentation",
   lits "readme", lits "changelog", lits "guide", lits "tutorial", lits "howto",
   lits "explain", lits "summariz", lits "tldr", lits "brief", lits "abstract",
   lits "outline"]

/-- The `business-marketing` keyword alternation from the categorizer rule table. -/
def bizMarketingAlts : List (List PTok) :=
  [lits "business", lits "market", lits "marketing", lits "seo", lits "sem", lits "ads",
   lits "advertis", lits "campaign", lits "funnel", lits "lead", lits "crm", lits "sales",
   lits "revenue", lits "price", lits "cost", lits "budget", lits "forecast", lits "finance",
   lits "account", lits "invoice", lits "payment", lits "stripe", lits "paypal",
   lits "billing", lits "subscri", lits "saas", lits "startup", lits "founder", lits "ceo",
   lits "cto", lits "product", lits "roadmap", lits "strategy", lits "plan", lits "goal",
   lits "okr", lits "kpi", lits "growth", lits "retention", lits "churn", lits "conversion",
   litsOpt "ab" "test", lits "experiment", lits "survey", lits "feedback", lits "review",
   lits "rating", lits "nps", lits "customer", lits "client", lits "user", lits "persona",
   lits "segment", lits "cohort", lits "outreach", lits "cold", lits "warm", lits "network",
   lits "linkedin", lits "twitter"]

/-- The `productivity` keyword alternation from the categorizer rule table. -/
def productivityAlts : List (List PTok) :=
  [lits "productiv", lits "todo", lits "task", lits "project", lits "manage", lits "organize",
   lits "automate", lits "workflow", lits "schedule", lits "calendar", lits "time",
   lits "track", lits "pomodoro", lits "focus", lits "habit", lits "routine", lits "template",
   lits "snippet", lits "shortcut", lits "hotkey", lits "macro", lits "script", lits "shell",
   lits "bash", lits "zsh", lits "terminal", lits "command", lits "alias", lits "dotfile",
   lits "config", lits "setting", lits "prefer", lits "custom", lits "personal", lits "note",
   lits "notion", lits "obsidian", lits "roam", lits "logseq", lits "bookmark", lits "save",
   lits "archive", lits "backup", lits "sync", lits "cloud", lits "storage", lits "drive",
   lits "dropbox", lits "search", lits "find", lits "filter", lits "sort", lits "tag",
   lits "label", lits "folder", lits "workspace", lits "desktop", lits "window", lits "tab",
   lits "split", lits "arrange", lits "clipboard", lits "paste", lits "history"]

/-- The `collaboration` keyword alternation from the categorizer rule table. -/
def collabAlts : List (List PTok) :=
  [lits "collaborat", lits "team", lits "group", lits "share", lits "invite",
   lits "permission", lits "role", lits "access", lits "admin", lits "member",
   lits "contributor", lits "reviewer", lits "approve", lits "merge",
   litsOpt "pull" "request", lits "pr", lits "issue", lits "ticket", lits "bug",
   litsOpt "feature" "request", lits "board", lits "kanban", lits "agile", lits "scrum",
   lits "sprint", lits "standup", lits "retro", lits "meeting", lits "call", lits "zoom",
   litsOpt "google" "meet", lits "pair", lits "mob", lits "live", litsOpt "real" "time",
   lits "concurrent", lits "conflict", lits "resolve", lits "comment", lits "thread",
   lits "discuss", lits "vote", lits "poll", lits "decide", lits "consensus"]

/-- The `security` keyword alternation from the categorizer rule table. -/
def securityAlts : List (List PTok) :=
  [lits "security", lits "secure", lits "encrypt", lits "decrypt", lits "hash", lits "salt",
   lits "password", lits "credential", lits "secret", lits "vault", lits "key", lits "cert",
   lits "ssl", lits "tls", lits "https", lits "firewall", lits "vpn", lits "proxy",
   lits "tor", lits "privacy", lits "anonym", lits "gdpr", lits "compliance", lits "audit",
   lits "log", lits "monitor", lits "alert", lits "incident", lits "response",
   lits "forensic", lits "malware", lits "virus", lits "phish", lits "spam", lits "block",
   lits "allow", lits "deny", lits "rule", lits "policy", lits "rbac", lits "iam", lits "sso",
   lits "mfa", lits "2fa", lits "otp", lits "biometric", litsOpt "zero" "trust"]
/-- The ordered `CATEGORIES` rule table of the categorizer. -/
def CATEGORIES : List (String × List (List PTok)) :=
  [("development-tools", devToolsAlts),
   ("data-analysis", dataAnalysisAlts),
   ("document-processing", docProcAlts),
   ("creative-media", creativeAlts),
   ("communication-writing", commWritingAlts),
   ("business-marketing", bizMarketingAlts),
   ("productivity", productivityAlts),
   ("collaboration", collabAlts),
   ("security", securityAlts)]

/-- The search text `${source} ${skillId} ${title}` lowercased (the
categorizer's patterns all carry the `i` flag and the keywords are
lowercase, so case-insensitive matching is matching on the lowercased
text). -/
def searchLower (source skillId title : String) : List Char :=
  ((source ++ " " ++ skillId ++ " " ++ title).data).map Char.toLower

/-- `categorize` from the unnamed source file: the category of the first
rule whose pattern matches the search text, else `"other"`. -/
def categorize (source skillId title : String) : String :=
  match CATEGORIES.find?
      (fun r => patternMatches r.2 (searchLower source skillId title)) with
  | some r => r.1
  | none => "other"

/-! ## Concrete example inputs used by witnesses -/

/-- Example persisted first-seen map: the id `a/b` is already present. -/
def exM : String → Option String :=
  fun k => if k = "a/b" then some "2024-01-01T00:00:00Z" else none

/-- Example board rows with a duplicated id. -/
def exRows3 : List ApiSkill :=
  [⟨"a", "b", "A", 3⟩, ⟨"a", "b", "B", 7⟩, ⟨"c", "d", "C", 1⟩]

/-- Example all-time board: one row for id `a/b`. -/
def exAll : List ApiSkill := [⟨"a", "b", "First", 5⟩]

/-- Example trending board: a second row for the same id. -/
def exTr : List ApiSkill := [⟨"a", "b", "Second", 9⟩]

/-- Example all-time board for the defaulting witness: only id `c/d`. -/
def exBAll : List ApiSkill := [⟨"c", "d", "C", 4⟩]

/-- Example trending board for the defaulting witness: only id `a/b`. -/
def exBTr : List ApiSkill := [⟨"a", "b", "A", 9⟩]

/-- The index item built for the trending-only id `a/b`. -/
def exTrOnlyItem : SkillIndexItem :=
  buildItem (buildInstalls exBAll) (buildInstalls exBTr) (buildInstalls [])
    (fun _ => none) ("a/b", ⟨"a", "b", "A", 9⟩)

/-- An example index item with no description. -/
def exItem : SkillIndexItem :=
  { id := "a/b", providerId := "skills.sh", source := "a", skillId := "b",
    title := "T", link := "L", installsAllTime := 5, installsTrending := 0,
    installsHot := 0, firstSeenAt := none, description := none,
    skillMdPath := none }

/-- An example index item that already has a description. -/
def exItemDescribed : SkillIndexItem :=
  { exItem with id := "c/d", description := some "Already here." }

/-- An example enrichment result carrying a non-null description. -/
def exRes : EnrichResult :=
  { id := "a/b", description := some "A fetched description.",
    mdPath := some "data/skills-md/a/b/SKILL.md" }

/-- A 250-character input whose extracted description needs truncation. -/
def exLongMd : String := String.mk (List.replicate 250 'a')

/-! ## C1: retry behaviour on a non-retryable HTTP status -/

/-- C1: the claim says a 4xx response other than 429 (e.g. 404) makes
`fetchWithRetry` fail immediately, with no further fetch attempt and no
backoff wait.  The code does not do this: the `throw` for the non-retryable
status is caught by the function's own `catch`, which sleeps and retries.
Against an endpoint that always answers 404, the wrapper performs all 4
fetch attempts and 3 backoff waits (200, 400, 800 ms) before the HTTP 404
error finally propagates from the last attempt. -/
theorem fetchWithRetry_404_retries :
    fetchWithRetry (fun _ => .response 404) =
      { result := .error (.httpError 404), fetchCount := 4,
        sleeps := [200, 400, 800] } := rfl

/-! ## C2: first-seen timestamps are append-only -/

theorem updateFirstSeen_some (ids : List String) :
    ∀ (m : String → Option String) (now id t : String),
      m id = some t → updateFirstSeen m ids now id = some t := by
  induction ids with
  | nil => exact fun m now id t h => h
  | cons i ids ih =>
    intro m now id t h
    show updateFirstSeen (firstSeenStep now m i) ids now id = some t
    apply ih
    unfold firstSeenStep
    by_cases hi : (m i).isSome
    · rw [if_pos hi]; exact h
    · rw [if_neg hi]
      by_cases hid : id = i
      · subst hid; exact absurd (by rw [h]; rfl) hi
      · simpa [hid] using h

theorem updateFirstSeen_mem (ids : List String) :
    ∀ (m : String → Option String) (now id : String),
      m id = none → id ∈ ids → updateFirstSeen m ids now id = some now := by
  induction ids with
  | nil => intro m now id _ hmem; cases hmem
  | cons i ids ih =>
    intro m now id h hmem
    show updateFirstSeen (firstSeenStep now m i) ids now id = some now
    by_cases hid : id = i
    · subst hid
      have hstep : firstSeenStep now m id id = some now := by
        unfold firstSeenStep
        rw [if_neg (by rw [h]; exact Bool.false_ne_true)]
        simp
      exact updateFirstSeen_some ids _ now id now hstep
    · have hmem' : id ∈ ids := by
        rcases List.mem_cons.mp hmem with h1 | h2
        · exact absurd h1 hid
        · exact h2
      apply ih _ now id _ hmem'
      unfold firstSeenStep
      by_cases hi : (m i).isSome
      · rw [if_pos hi]; exact h
      · rw [if_neg hi]; simpa [hid] using h

/-- C2: for every id already present in the loaded first-seen map, the map
saved at the end of the run holds the loaded timestamp unchanged; every id
observed (in `skillMap.keys()`) but absent from the loaded map is assigned
the run's single `now` timestamp. -/
theorem firstSeen_append_only (m₀ : String → Option String) (ids : List String)
    (now : String) :
    (∀ id t, m₀ id = some t → updateFirstSeen m₀ ids now id = some t) ∧
    (∀ id, id ∈ ids → m₀ id = none → updateFirstSeen m₀ ids now id = some now) :=
  ⟨fun id t h => updateFirstSeen_some ids m₀ now id t h,
   fun id hmem h => updateFirstSeen_mem ids m₀ now id h hmem⟩

/-- Witness for C2 at a concrete map, id list and timestamp. -/
theorem firstSeen_append_only_witness :
    updateFirstSeen exM ["a/b", "c/d"] "2025-06-01T00:00:00Z" "a/b"
        = some "2024-01-01T00:00:00Z" ∧
    updateFirstSeen exM ["a/b", "c/d"] "2025-06-01T00:00:00Z" "c/d"
        = some "2025-06-01T00:00:00Z" :=
  ⟨(firstSeen_append_only exM ["a/b", "c/d"] "2025-06-01T00:00:00Z").1
      "a/b" "2024-01-01T00:00:00Z" (by decide),
   (firstSeen_append_only exM ["a/b", "c/d"] "2025-06-01T00:00:00Z").2
      "c/d" (by decide) (by decide)⟩

/-! ## C7: the worked description-extraction example -/

/-- C7: on the spec's example input, `extractDescription` strips the
front-matter block and the heading, removes the emphasis markers, stops at
the blank line after content, and returns exactly
`"This is the description."`. -/
theorem extractDescription_example :
    extractDescription
        "---\ntitle: x\n---\n# Heading\n\nThis is **the** description.\n\nMore text."
      = some "This is the description." := rfl

/-! ## C3: per-board install counts are the max over that board's rows -/

theorem le_foldl_max (l : List Nat) : ∀ a : Nat, a ≤ l.foldl max a := by
  induction l with
  | nil => exact fun a => le_refl a
  | cons b l ih => exact fun a => le_trans (le_max_left a b) (ih (max a b))

theorem foldl_max_le (l : List Nat) :
    ∀ a x : Nat, x ∈ l → x ≤ l.foldl max a := by
  induction l with
  | nil => intro a x hx; cases hx
  | cons b l ih =>
    intro a x hx
    rcases List.mem_cons.mp hx with rfl | hx2
    · exact le_trans (le_max_right a x) (le_foldl_max l (max a x))
    · exact ih (max a b) x hx2

theorem foldl_max_mem (l : List Nat) :
    ∀ a : Nat, l.foldl max a = a ∨ l.foldl max a ∈ l := by
  induction l with
  | nil => exact fun a => .inl rfl
  | cons b l ih =>
    intro a
    rw [List.foldl_cons]
    rcases ih (max a b) with h | h
    · rw [h]
      rcases Nat.le_total a b with hab | hba
      · right; rw [Nat.max_eq_right hab]; exact List.mem_cons_self b l
      · left; exact Nat.max_eq_left hba
    · right; exact List.mem_cons_of_mem b h

/-- Characterisation of the per-board installs-map fold: at key `id`, the
result is the starting value when no row of the board carries `id`, and
otherwise the max of those rows' installs folded onto the starting value. -/
theorem buildInstalls_go (rows : List ApiSkill) :
    ∀ (m : String → Option Nat) (id : String),
      rows.foldl installsStep m id =
        if (rows.filter (fun s => mkId s = id)).isEmpty then m id
        else some (((rows.filter (fun s => mkId s = id)).map ApiSkill.installs).foldl
          max ((m id).getD 0)) := by
  induction rows with
  | nil => intro m id; rfl
  | cons s rows ih =>
    intro m id
    rw [List.foldl_cons, ih]
    by_cases h : mkId s = id
    · rw [List.filter_cons_of_pos (by simp [h])]
      have hstep : installsStep m s id = some (max ((m id).getD 0) s.installs) := by
        unfold installsStep
        rw [if_pos h.symm, h]
      rw [hstep]
      by_cases he : (rows.filter (fun s => mkId s = id)).isEmpty
      · rw [if_pos he, List.isEmpty_iff.mp he]
        simp
      · rw [if_neg he]
        simp
    · rw [List.filter_cons_of_neg (by simp [h])]
      have hstep : installsStep m s id = m id := by
        unfold installsStep
        rw [if_neg (fun hk => h hk.symm)]
      rw [hstep]

/-- C3: for each board and every id occurring among that board's rows, the
value recorded in the board's installs map is the maximum of the `installs`
values over all rows with that id: it is attained by one of those rows and
bounds them all. -/
theorem board_installs_is_max (rows : List ApiSkill) (id : String)
    (h : ∃ s ∈ rows, mkId s = id) :
    ∃ v, buildInstalls rows id = some v ∧
      (∃ s ∈ rows, mkId s = id ∧ s.installs = v) ∧
      (∀ s ∈ rows, mkId s = id → s.installs ≤ v) := by
  obtain ⟨s₀, hs₀, hid₀⟩ := h
  have hmemf : s₀ ∈ rows.filter (fun s => mkId s = id) :=
    List.mem_filter.mpr ⟨hs₀, decide_eq_true hid₀⟩
  have hne : rows.filter (fun s => mkId s = id) ≠ [] := by
    intro hnil; rw [hnil] at hmemf; cases hmemf
  have hval : buildInstalls rows id =
      some (((rows.filter (fun s => mkId s = id)).map ApiSkill.installs).foldl max 0) := by
    show rows.foldl installsStep (fun _ => none) id = _
    rw [buildInstalls_go]
    rw [if_neg (by simpa [List.isEmpty_iff] using hne)]
    rfl
  refine ⟨((rows.filter (fun s => mkId s = id)).map ApiSkill.installs).foldl max 0,
    hval, ?_, ?_⟩
  · have hattained :
        ((rows.filter (fun s => mkId s = id)).map ApiSkill.installs).foldl max 0 ∈
          (rows.filter (fun s => mkId s = id)).map ApiSkill.installs := by
      rcases foldl_max_mem ((rows.filter (fun s => mkId s = id)).map ApiSkill.installs) 0
        with h0 | hm
      · -- the fold collapsed to the base 0: the head of the list is then 0 as well
        have hx : s₀.installs ∈ (rows.filter (fun s => mkId s = id)).map ApiSkill.installs :=
          List.mem_map_of_mem ApiSkill.installs hmemf
        have hle := foldl_max_le _ 0 s₀.installs hx
        rw [h0] at hle
        rw [h0]
        exact Nat.le_zero.mp hle ▸ hx
      · exact hm
    obtain ⟨s, hsf, hsv⟩ := List.mem_map.mp hattained
    obtain ⟨hsr, hsid⟩ := List.mem_filter.mp hsf
    exact ⟨s, hsr, of_decide_eq_true hsid, hsv⟩
  · intro s hs hsid
    exact foldl_max_le _ 0 s.installs
      (List.mem_map_of_mem ApiSkill.installs
        (List.mem_filter.mpr ⟨hs, decide_eq_true hsid⟩))

/-- Witness for C3: rows `[("a/b", 3), ("a/b", 7), ("c/d", 1)]` at id
`a/b`. -/
theorem board_installs_is_max_witness :
    ∃ v, buildInstalls exRows3 "a/b" = some v ∧
      (∃ s ∈ exRows3, mkId s = "a/b" ∧ s.installs = v) ∧
      (∀ s ∈ exRows3, mkId s = "a/b" → s.installs ≤ v) :=
  board_installs_is_max exRows3 "a/b"
    ⟨⟨"a", "b", "A", 3⟩, by decide, by decide⟩

/-! ## C4: cross-board union is deduplicated, first row wins -/

theorem skillMap_find_preserved (rows : List ApiSkill) :
    ∀ (acc : List (String × ApiSkill)) (id : String) (pr : String × ApiSkill),
      acc.find? (fun p => p.1 = id) = some pr →
      (rows.foldl insertSkill acc).find? (fun p => p.1 = id) = some pr := by
  induction rows with
  | nil => exact fun acc id pr h => h
  | cons s rows ih =>
    intro acc id pr h
    rw [List.foldl_cons]
    apply ih
    unfold insertSkill
    by_cases ha : acc.any (fun p => p.1 = mkId s) = true
    · rw [if_pos ha]; exact h
    · rw [if_neg ha, List.find?_append, h]; rfl

theorem skillMap_find_absent (rows : List ApiSkill) :
    ∀ (acc : List (String × ApiSkill)) (id : String),
      acc.find? (fun p => p.1 = id) = none →
      (rows.foldl insertSkill acc).find? (fun p => p.1 = id) =
        (rows.find? (fun s => mkId s = id)).map (fun s => (id, s)) := by
  induction rows with
  | nil => intro acc id h; exact h
  | cons s rows ih =>
    intro acc id h
    rw [List.foldl_cons]
    by_cases hid : mkId s = id
    · have hacc : ¬ acc.any (fun p => p.1 = mkId s) = true := by
        intro hany
        rcases List.any_eq_true.mp hany with ⟨p, hp, hq⟩
        rw [hid] at hq
        exact (List.find?_eq_none.mp h p hp) hq
      have hins : insertSkill acc s = acc ++ [(mkId s, s)] := by
        unfold insertSkill; rw [if_neg hacc]
      rw [hins]
      have hsingle : (acc ++ [(mkId s, s)]).find? (fun p => p.1 = id)
          = some (mkId s, s) := by
        rw [List.find?_append, h]
        simp [hid]
      rw [skillMap_find_preserved rows _ id _ hsingle,
        List.find?_cons_of_pos _ (by simp [hid])]
      simp [hid]
    · have hacc2 : (insertSkill acc s).find? (fun p => p.1 = id) = none := by
        unfold insertSkill
        by_cases ha : acc.any (fun p => p.1 = mkId s) = true
        · rw [if_pos ha]; exact h
        · rw [if_neg ha, List.find?_append, h]
          simp [hid]
      rw [ih _ id hacc2, List.find?_cons_of_neg _ (by simp [hid])]

theorem skillMap_countP_le (rows : List ApiSkill) :
    ∀ (acc : List (String × ApiSkill)) (id : String),
      acc.countP (fun p => p.1 = id) ≤ 1 →
      (rows.foldl insertSkill acc).countP (fun p => p.1 = id) ≤ 1 := by
  induction rows with
  | nil => exact fun acc id h => h
  | cons s rows ih =>
    intro acc id h
    rw [List.foldl_cons]
    apply ih
    unfold insertSkill
    by_cases ha : acc.any (fun p => p.1 = mkId s) = true
    · rw [if_pos ha]; exact h
    · rw [if_neg ha, List.countP_append]
      by_cases hid : mkId s = id
      · have hz : acc.countP (fun p => p.1 = id) = 0 := by
          rw [List.countP_eq_zero]
          intro p hp hq
          exact ha (List.any_eq_true.mpr ⟨p, hp, by rw [hid]; exact hq⟩)
        rw [hz]
        simp [List.countP_cons, hid]
      · have hz1 : List.countP (fun p => decide (p.1 = id)) [(mkId s, s)] = 0 := by
          simp [List.countP_cons, hid]
        rw [hz1]
        simpa using h

/-- `skillMap` at a key holds the first row of the concatenated boards that
carries that key (as well as the key itself). -/
theorem skillMap_find (rows : List ApiSkill) (id : String) :
    (buildSkillMap rows).find? (fun p => p.1 = id) =
      (rows.find? (fun s => mkId s = id)).map (fun s => (id, s)) :=
  skillMap_find_absent rows [] id rfl

theorem skillMap_countP_eq_one (rows : List ApiSkill) (id : String)
    (h : ∃ s ∈ rows, mkId s = id) :
    (buildSkillMap rows).countP (fun p => p.1 = id) = 1 := by
  have hle : (buildSkillMap rows).countP (fun p => p.1 = id) ≤ 1 :=
    skillMap_countP_le rows [] id (by simp)
  obtain ⟨s, hs, hsid⟩ := h
  cases hf : rows.find? (fun s => mkId s = id) with
  | none => exact absurd (decide_eq_true hsid) (List.find?_eq_none.mp hf s hs)
  | some s0 =>
    have hfind := skillMap_find rows id
    rw [hf] at hfind
    have hmem : (id, s0) ∈ buildSkillMap rows :=
      List.mem_of_find?_eq_some (p := fun p => p.1 = id) (by simpa using hfind)
    have hpos : 0 < (buildSkillMap rows).countP (fun p => p.1 = id) :=
      List.countP_pos_iff.mpr ⟨(id, s0), hmem, by simp⟩
    omega

/-- C4: for every id occurring among the rows of any board, the built index
contains exactly one item with that id, and that item's descriptive fields
(title, and the source/skillId the link is built from) come from the first
row bearing the id when scanning boards in the order all-time, trending,
hot (and rows in fetch order within a board). -/
theorem index_dedup_first_wins (bAll bTr bHot : List ApiSkill)
    (firstSeen : String → Option String) (id : String)
    (h : ∃ s ∈ bAll ++ bTr ++ bHot, mkId s = id) :
    (buildItems bAll bTr bHot firstSeen).countP (fun it => it.id = id) = 1 ∧
    ∃ s, (bAll ++ bTr ++ bHot).find? (fun s => mkId s = id) = some s ∧
      ∃ it, (buildItems bAll bTr bHot firstSeen).find? (fun it => it.id = id)
          = some it ∧
        it.title = s.name ∧ it.source = s.source ∧ it.skillId = s.skillId := by
  constructor
  · show (List.map (buildItem _ _ _ _)
      (buildSkillMap (bAll ++ bTr ++ bHot))).countP (fun it => it.id = id) = 1
    rw [List.countP_map]
    exact skillMap_countP_eq_one (bAll ++ bTr ++ bHot) id h
  · obtain ⟨s, hs, hsid⟩ := h
    cases hf : (bAll ++ bTr ++ bHot).find? (fun s => mkId s = id) with
    | none => exact absurd (decide_eq_true hsid) (List.find?_eq_none.mp hf s hs)
    | some s0 =>
      refine ⟨s0, rfl, ?_⟩
      refine ⟨buildItem (buildInstalls bAll) (buildInstalls bTr)
        (buildInstalls bHot) firstSeen (id, s0), ?_, rfl, rfl, rfl⟩
      show (List.map (buildItem _ _ _ _)
        (buildSkillMap (bAll ++ bTr ++ bHot))).find? (fun it => it.id = id) = _
      rw [List.find?_map]
      have hsm := skillMap_find (bAll ++ bTr ++ bHot) id
      rw [hf] at hsm
      show Option.map _
        ((buildSkillMap (bAll ++ bTr ++ bHot)).find? (fun p => p.1 = id)) = _
      rw [hsm]
      rfl

/-- Witness for C4: id `a/b` appears on the all-time and trending boards;
the all-time row (title `First`) supplies the descriptive fields. -/
theorem index_dedup_first_wins_witness :
    (buildItems exAll exTr [] (fun _ => none)).countP
        (fun it => it.id = "a/b") = 1 ∧
    ∃ s, (exAll ++ exTr ++ []).find? (fun s => mkId s = "a/b") = some s ∧
      ∃ it, (buildItems exAll exTr [] (fun _ => none)).find?
          (fun it => it.id = "a/b") = some it ∧
        it.title = s.name ∧ it.source = s.source ∧ it.skillId = s.skillId :=
  index_dedup_first_wins exAll exTr [] (fun _ => none) "a/b"
    ⟨⟨"a", "b", "First", 5⟩, by decide, by decide⟩

/-! ## C5: the index is sorted descending, stably -/

theorem mem_insertDesc (x b : SkillIndexItem) :
    ∀ l : List SkillIndexItem, b ∈ insertDesc x l ↔ b = x ∨ b ∈ l := by
  intro l
  induction l with
  | nil => simp [insertDesc]
  | cons y ys ih =>
    unfold insertDesc
    by_cases hle : y.installsAllTime ≤ x.installsAllTime
    · rw [if_pos hle]; simp
    · rw [if_neg hle]
      simp only [List.mem_cons, ih]
      tauto

theorem insertDesc_sorted (x : SkillIndexItem) :
    ∀ l : List SkillIndexItem,
      l.Pairwise (fun a b => b.installsAllTime ≤ a.installsAllTime) →
      (insertDesc x l).Pairwise (fun a b => b.installsAllTime ≤ a.installsAllTime) := by
  intro l
  induction l with
  | nil => intro _; simp [insertDesc]
  | cons y ys ih =>
    intro hp
    rcases List.pairwise_cons.mp hp with ⟨hy, hys⟩
    unfold insertDesc
    by_cases hle : y.installsAllTime ≤ x.installsAllTime
    · rw [if_pos hle]
      refine List.pairwise_cons.mpr ⟨?_, hp⟩
      intro b hb
      rcases List.mem_cons.mp hb with rfl | hb2
      · exact hle
      · exact le_trans (hy b hb2) hle
    · rw [if_neg hle]
      refine List.pairwise_cons.mpr ⟨?_, ih hys⟩
      intro b hb
      rcases (mem_insertDesc x b ys).mp hb with rfl | hb2
      · exact le_of_lt (lt_of_not_le hle)
      · exact hy b hb2

theorem sortItems_sorted (l : List SkillIndexItem) :
    (sortItems l).Pairwise (fun a b => b.installsAllTime ≤ a.installsAllTime) := by
  induction l with
  | nil => exact List.Pairwise.nil
  | cons x xs ih => exact insertDesc_sorted x (sortItems xs) ih

theorem insertDesc_filter (x : SkillIndexItem) (v : Nat) :
    ∀ l : List SkillIndexItem,
      (insertDesc x l).filter (fun y => y.installsAllTime = v) =
        if x.installsAllTime = v then
          x :: l.filter (fun y => y.installsAllTime = v)
        else l.filter (fun y => y.installsAllTime = v) := by
  intro l
  induction l with
  | nil =>
    by_cases h : x.installsAllTime = v <;> simp [insertDesc, h]
  | cons y ys ih =>
    unfold insertDesc
    by_cases hle : y.installsAllTime ≤ x.installsAllTime
    · rw [if_pos hle]
      by_cases h : x.installsAllTime = v <;> simp [List.filter_cons, h]
    · rw [if_neg hle, List.filter_cons, ih]
      by_cases hy : y.installsAllTime = v
      · by_cases h : x.installsAllTime = v
        · exact absurd (le_of_eq (hy.trans h.symm)) hle
        · simp [List.filter_cons, hy, h]
      · by_cases h : x.installsAllTime = v <;> simp [List.filter_cons, hy, h]

/-- Stability of the sort: the sub-sequence of items carrying any fixed
`installsAllTime` value is unchanged by sorting. -/
theorem sortItems_filter (v : Nat) (l : List SkillIndexItem) :
    (sortItems l).filter (fun y => y.installsAllTime = v) =
      l.filter (fun y => y.installsAllTime = v) := by
  induction l with
  | nil => rfl
  | cons x xs ih =>
    show (insertDesc x (sortItems xs)).filter _ = _
    rw [insertDesc_filter, List.filter_cons]
    by_cases h : x.installsAllTime = v <;> simp [h, ih]

/-- C5: the items array of the written index is sorted descending by
`installsAllTime`, and items with equal `installsAllTime` keep their
relative first-encountered order across boards in board-enumeration order
(the order of `buildItems`): for every install count `v`, the sub-sequence
of items with that count is exactly the one of the unsorted list. -/
theorem index_sorted_stable (bAll bTr bHot : List ApiSkill)
    (firstSeen : String → Option String) :
    (sortItems (buildItems bAll bTr bHot firstSeen)).Pairwise
      (fun a b => b.installsAllTime ≤ a.installsAllTime) ∧
    ∀ v : Nat,
      (sortItems (buildItems bAll bTr bHot firstSeen)).filter
          (fun y => y.installsAllTime = v) =
        (buildItems bAll bTr bHot firstSeen).filter
          (fun y => y.installsAllTime = v) :=
  ⟨sortItems_sorted (buildItems bAll bTr bHot firstSeen),
   fun v => sortItems_filter v (buildItems bAll bTr bHot firstSeen)⟩

/-! ## C6: the enrichment patch touches nothing else -/

/-- C6: during the enrichment pass an index item either stays exactly as it
was, or — only when its fetch result carries a non-null (and non-empty,
by JavaScript truthiness) description — has exactly its `description` and
`skillMdPath` fields replaced; a previously set description is never
replaced by `null`; and an item that already has a (truthy) description is
never on the work list `needsFetch`, so its id is not in the patch map. -/
theorem patchItem_some_none (r : EnrichResult) (item : SkillIndexItem)
    (hr : r.description = none) : patchItem (some r) item = item := by
  simp [patchItem, hr]

theorem patchItem_some_empty (r : EnrichResult) (item : SkillIndexItem)
    (d : String) (hr : r.description = some d) (hd : d = "") :
    patchItem (some r) item = item := by
  simp [patchItem, hr, hd]

theorem patchItem_some_desc (r : EnrichResult) (item : SkillIndexItem)
    (d : String) (hr : r.description = some d) (hd : d ≠ "") :
    patchItem (some r) item =
      { item with description := some d, skillMdPath := r.mdPath } := by
  simp [patchItem, hr, hd]

theorem enrich_patch_frame (r? : Option EnrichResult) (item : SkillIndexItem) :
    (patchItem r? item = item ∨
      ∃ r d, r? = some r ∧ r.description = some d ∧ d ≠ "" ∧
        patchItem r? item =
          { item with description := some d, skillMdPath := r.mdPath }) ∧
    ((patchItem r? item).description = none → item.description = none) ∧
    (∀ topN items it, strTruthy it.description = true →
      it ∉ needsFetch topN items) := by
  refine ⟨?_, ?_, ?_⟩
  · match r? with
    | none => exact .inl rfl
    | some r =>
      match hr : r.description with
      | none => exact .inl (patchItem_some_none r item hr)
      | some d =>
        by_cases hd : d = ""
        · exact .inl (patchItem_some_empty r item d hr hd)
        · exact .inr ⟨r, d, rfl, hr, hd, patchItem_some_desc r item d hr hd⟩
  · match r? with
    | none => exact fun h => h
    | some r =>
      match hr : r.description with
      | none => rw [patchItem_some_none r item hr]; exact fun h => h
      | some d =>
        by_cases hd : d = ""
        · rw [patchItem_some_empty r item d hr hd]; exact fun h => h
        · rw [patchItem_some_desc r item d hr hd]
          intro h
          exact absurd h (by simp)
  · intro topN items it htr hmem
    have h2 := (List.mem_filter.mp hmem).2
    rw [htr] at h2
    simp at h2

/-- Witness for C6 at concrete inputs: an untouched item keeps its null
description, and an already-described item is not on the work list. -/
theorem enrich_patch_frame_witness :
    exItem.description = none ∧
    exItemDescribed ∉ needsFetch 10 [exItemDescribed] :=
  ⟨(enrich_patch_frame none exItem).2.1 rfl,
   (enrich_patch_frame none exItem).2.2 10 [exItemDescribed] exItemDescribed
     (by decide)⟩

/-! ## C8: extracted descriptions are between 11 and 200 characters -/

theorem string_length_mk (l : List Char) : (String.mk l).length = l.length := rfl

theorem extractDescription_none (md : String) (h : descCore md.data = none) :
    extractDescription md = none := by
  unfold extractDescription
  rw [h]

theorem extractDescription_eq_of_descCore (md : String) (desc : List Char)
    (h : descCore md.data = some desc) :
    extractDescription md =
      if (if desc.length > 200 then desc.take 197 ++ ['.', '.', '.']
          else desc).length > 10
      then some (String.mk (if desc.length > 200
        then desc.take 197 ++ ['.', '.', '.'] else desc))
      else none := by
  unfold extractDescription
  rw [h]

/-- C8: for every input, `extractDescription` returns either `null` or a
string of length at least 11 and at most 200; a pre-truncation result
shorter than 11 characters yields `null`, and one longer than 200
characters is truncated to exactly 200 characters ending in the `...`
marker. -/
theorem extractDescription_length_bounds (md : String) :
    (∀ d, extractDescription md = some d → 11 ≤ d.length ∧ d.length ≤ 200) ∧
    (∀ desc, descCore md.data = some desc → 200 < desc.length →
      extractDescription md =
        some (String.mk (desc.take 197 ++ ['.', '.', '.'])) ∧
      (String.mk (desc.take 197 ++ ['.', '.', '.'])).length = 200) := by
  constructor
  · intro d hd
    cases hc : descCore md.data with
    | none => rw [extractDescription_none md hc] at hd; cases hd
    | some desc =>
      rw [extractDescription_eq_of_descCore md desc hc] at hd
      by_cases h200 : desc.length > 200
      · rw [if_pos h200] at hd
        have hlen : (desc.take 197 ++ ['.', '.', '.']).length = 200 := by
          rw [List.length_append, List.length_take]
          simp only [List.length_cons, List.length_nil]
          omega
        rw [if_pos (by rw [hlen]; omega)] at hd
        cases hd
        have hsl : (String.mk (desc.take 197 ++ ['.', '.', '.'])).length = 200 := by
          rw [string_length_mk, hlen]
        rw [hsl]
        omega
      · rw [if_neg h200] at hd
        by_cases h10 : desc.length > 10
        · rw [if_pos h10] at hd
          cases hd
          have hsl := string_length_mk desc
          rw [hsl]
          omega
        · rw [if_neg h10] at hd; cases hd
  · intro desc hc h200
    have hlen : (desc.take 197 ++ ['.', '.', '.']).length = 200 := by
      rw [List.length_append, List.length_take]
      simp only [List.length_cons, List.length_nil]
      omega
    constructor
    · rw [extractDescription_eq_of_descCore md desc hc, if_pos h200,
        if_pos (by rw [hlen]; omega)]
    · rw [string_length_mk, hlen]

/-- Witness for C8: a 250-character input is truncated to a 200-character
description. -/
theorem extractDescription_length_bounds_witness :
    11 ≤ (String.mk (List.replicate 197 'a' ++ ['.', '.', '.'])).length ∧
    (String.mk (List.replicate 197 'a' ++ ['.', '.', '.'])).length ≤ 200 :=
  (extractDescription_length_bounds exLongMd).1
    (String.mk (List.replicate 197 'a' ++ ['.', '.', '.'])) (by decide)

/-! ## C9: first-matching-rule categorization -/

/-- C9: `categorize` is a pure deterministic function of source, skillId
and title: it returns the category of the first rule in the ordered table
whose case-insensitive word-boundary pattern matches the search text, and
`"other"` when no rule matches; concretely, title `Docker CI pipeline`
yields `development-tools` and text matching no keyword yields `other`. -/
theorem categorize_first_match :
    (∀ src sid title,
      (∀ r ∈ CATEGORIES,
        patternMatches r.2 (searchLower src sid title) = false) →
      categorize src sid title = "other") ∧
    (∀ src sid title r,
      CATEGORIES.find?
          (fun q => patternMatches q.2 (searchLower src sid title)) = some r →
      categorize src sid title = r.1) ∧
    categorize "a" "b" "Docker CI pipeline" = "development-tools" ∧
    categorize "x" "y" "zzz qqq" = "other" := by
  refine ⟨?_, ?_, by decide, by decide⟩
  · intro src sid title hall
    unfold categorize
    have hnone : CATEGORIES.find?
        (fun q => patternMatches q.2 (searchLower src sid title)) = none :=
      List.find?_eq_none.mpr (fun r hr h => by
        rw [hall r hr] at h
        exact Bool.false_ne_true h)
    rw [hnone]
  · intro src sid title r hr
    unfold categorize
    rw [hr]

/-- Witness for C9: concrete inputs exercising the no-match branch and the
first-match branch of the theorem. -/
theorem categorize_first_match_witness :
    categorize "q" "r" "hello hello" = "other" ∧
    categorize "u" "v" "Docker tool" = "development-tools" :=
  ⟨categorize_first_match.1 "q" "r" "hello hello" (by decide),
   categorize_first_match.2.1 "u" "v" "Docker tool"
     ("development-tools", devToolsAlts) (by decide)⟩

/-! ## C10: ids absent from a board default to 0 installs -/

theorem buildInstalls_absent (rows : List ApiSkill) (id : String)
    (h : ∀ s ∈ rows, mkId s ≠ id) : buildInstalls rows id = none := by
  show rows.foldl installsStep (fun _ => none) id = none
  rw [buildInstalls_go]
  rw [if_pos (by
    rw [List.isEmpty_iff, List.filter_eq_nil_iff]
    intro s hs
    simpa using h s hs)]

/-- C10: an index item whose id never occurs among a board's rows gets 0
for that board's install count (`installsX.get(id) ?? 0`), and the sorted
index is non-increasing in `installsAllTime`, so a skill seen only on the
trending or hot boards (all-time count 0) sorts behind every skill with at
least one all-time install. -/
theorem absent_board_installs_zero :
    (∀ (bAll bTr bHot : List ApiSkill) (fs : String → Option String)
        (it : SkillIndexItem), it ∈ buildItems bAll bTr bHot fs →
      ((∀ s ∈ bAll, mkId s ≠ it.id) → it.installsAllTime = 0) ∧
      ((∀ s ∈ bTr, mkId s ≠ it.id) → it.installsTrending = 0) ∧
      ((∀ s ∈ bHot, mkId s ≠ it.id) → it.installsHot = 0)) ∧
    (∀ (l : List SkillIndexItem) (i j : Fin (sortItems l).length), i < j →
      ((sortItems l).get j).installsAllTime ≤
        ((sortItems l).get i).installsAllTime) := by
  constructor
  · intro bAll bTr bHot fs it hmem
    obtain ⟨p, hp, hpe⟩ := List.mem_map.mp hmem
    have hid : it.id = p.1 := by rw [← hpe]; rfl
    refine ⟨?_, ?_, ?_⟩
    · intro habs
      rw [← hpe]
      show (buildInstalls bAll p.1).getD 0 = 0
      rw [← hid, buildInstalls_absent bAll it.id habs]
      rfl
    · intro habs
      rw [← hpe]
      show (buildInstalls bTr p.1).getD 0 = 0
      rw [← hid, buildInstalls_absent bTr it.id habs]
      rfl
    · intro habs
      rw [← hpe]
      show (buildInstalls bHot p.1).getD 0 = 0
      rw [← hid, buildInstalls_absent bHot it.id habs]
      rfl
  · intro l i j hij
    exact List.pairwise_iff_get.mp (sortItems_sorted l) i j hij

/-- Witness for C10: the id `a/b` appears only on the trending board, so
its item carries 0 all-time installs; and in a concrete sorted list the
later entry never has more all-time installs than an earlier one. -/
theorem absent_board_installs_zero_witness :
    exTrOnlyItem.installsAllTime = 0 ∧
    ((sortItems [exItem, exItem]).get ⟨1, by decide⟩).installsAllTime ≤
      ((sortItems [exItem, exItem]).get ⟨0, by decide⟩).installsAllTime :=
  ⟨(absent_board_installs_zero.1 exBAll exBTr [] (fun _ => none) exTrOnlyItem
      (List.mem_map_of_mem _ (by decide))).1 (by decide),
   absent_board_installs_zero.2 [exItem, exItem] ⟨0, by decide⟩ ⟨1, by decide⟩
     (by decide)⟩

end SkillsFetcher
